import Mathlib

set_option maxHeartbeats 1000000
set_option maxRecDepth 8000

namespace AgentConventions

/-! Shallow embedding of the agent-conventions installer:
    the Node CLI in src/packages/cli/src/index.js and the
    deprecated shell installer src/install.sh. -/

/-- One entry of the OPTIONS tables in src/packages/cli/src/index.js. -/
structure OptionEntry where
  value : String
  title : String
  description : String

/-- OPTIONS.languages. -/
def languageOptions : List OptionEntry := [
  ⟨"typescript", "TypeScript", "Strict mode, generics, utility types"⟩,
  ⟨"javascript", "JavaScript", "ESM, JSDoc, modern syntax"⟩,
  ⟨"php", "PHP", "PHP 8.1+, backed enums, readonly"⟩,
  ⟨"python", "Python", "Type hints, dataclasses, protocols"⟩,
  ⟨"java", "Java", "Records, sealed classes, streams"⟩,
  ⟨"csharp", "C#", "Nullable refs, records, LINQ"⟩,
  ⟨"go", "Go", "Error handling, interfaces, context"⟩]

/-- OPTIONS.frontendFrameworks. -/
def frontendFrameworkOptions : List OptionEntry := [
  ⟨"react", "React", "Components, hooks, state"⟩,
  ⟨"nextjs", "Next.js", "App Router, Server Components"⟩,
  ⟨"vue", "Vue", "Composition API, Pinia"⟩,
  ⟨"angular", "Angular", "Standalone, signals, RxJS"⟩]

/-- OPTIONS.backendFrameworks. -/
def backendFrameworkOptions : List OptionEntry := [
  ⟨"laravel", "Laravel", "PHP, Eloquent, Livewire"⟩,
  ⟨"symfony", "Symfony", "PHP, Doctrine, Messenger"⟩,
  ⟨"django", "Django", "Python, DRF, ORM"⟩,
  ⟨"spring", "Spring Boot", "Java, JPA, annotations"⟩,
  ⟨"nestjs", "NestJS", "TypeScript, decorators, DI"⟩,
  ⟨"rails", "Ruby on Rails", "Ruby, ActiveRecord, services"⟩,
  ⟨"dotnet", ".NET", "C#, EF Core, Minimal APIs"⟩]

/-- The FILE_PATHS catalog table: logical key to relative content path. -/
def FILE_PATHS (key : String) : Option String :=
  match key with
  | "core" => some "SKILL.md"
  | "api" => some "api.md"
  | "typescript" => some "languages/typescript.md"
  | "javascript" => some "languages/javascript.md"
  | "php" => some "languages/php.md"
  | "python" => some "languages/python.md"
  | "java" => some "languages/java.md"
  | "csharp" => some "languages/csharp.md"
  | "go" => some "languages/go.md"
  | "react" => some "frameworks/frontend/react.md"
  | "nextjs" => some "frameworks/frontend/nextjs.md"
  | "vue" => some "frameworks/frontend/vue.md"
  | "angular" => some "frameworks/frontend/angular.md"
  | "laravel" => some "frameworks/backend/laravel.md"
  | "symfony" => some "frameworks/backend/symfony.md"
  | "django" => some "frameworks/backend/django.md"
  | "spring" => some "frameworks/backend/spring.md"
  | "nestjs" => some "frameworks/backend/nestjs.md"
  | "rails" => some "frameworks/backend/rails.md"
  | "dotnet" => some "frameworks/backend/dotnet.md"
  | _ => none

/-- The `selections` object accumulated by main() from flags and prompts. -/
structure Selections where
  languages : List String
  frontendFrameworks : List String
  backendFrameworks : List String
  includeApi : Bool
  target : Option String
  customPath : Option String

/-- The files-to-install list built in main(): the fixed core key,
    then the api key when the toggle is on, then the three choice
    lists spread in order.  The source performs no deduplication and
    no filtering here. -/
def filesToInstall (s : Selections) : List String :=
  ["core"] ++ (if s.includeApi then ["api"] else [])
    ++ s.languages ++ s.frontendFrameworks ++ s.backendFrameworks

/-- Filesystem model: path to file content. -/
def FS : Type := String → Option String

/-- fs.writeFile: overwrite the content at one path. -/
def updateFS (fs : FS) (p v : String) : FS :=
  fun q => if q = p then some v else fs q

/-- The empty filesystem. -/
def emptyFS : FS := fun _ => none

/-- Result of fetch(url): a transport error or a response with a status. -/
inductive RemoteResult where
  | transportError (msg : String)
  | response (status : Nat) (body : String)
deriving DecidableEq

/-- response.ok: the status is in the 200..299 range. -/
def statusOk (status : Nat) : Bool := 200 ≤ status && status < 300

/-- Whether a remote result makes the fallback fetch throw. -/
def remoteFails : RemoteResult → Bool
  | RemoteResult.transportError _ => true
  | RemoteResult.response st _ => !statusOk st

/-- External-world oracle for one run: bundled-templates reads, remote
    fetches, per-path success of mkdir and writeFile, and the message a
    failing filesystem call throws. -/
structure Env where
  localRead : String → Option String
  remote : String → RemoteResult
  mkdirOk : String → Bool
  writeOk : String → Bool
  errMsgOf : String → String

/-- The remote content base URL of the Node CLI. -/
def REPO_URL : String := "https://raw.githubusercontent.com/your-org/agent-conventions/main"

/-- fetchFile: try the bundled templates first; on any local failure fall
    back to an HTTP GET of REPO_URL/filePath, throwing `HTTP status` for a
    non-ok response and the transport message for a network error. -/
def fetchFile (env : Env) (filePath : String) : Except String String :=
  match env.localRead filePath with
  | some content => Except.ok content
  | none =>
    match env.remote (REPO_URL ++ "/" ++ filePath) with
    | RemoteResult.transportError msg => Except.error msg
    | RemoteResult.response status body =>
      if statusOk status then Except.ok body
      else Except.error ("HTTP " ++ toString status)

/-- path.join for a root and a relative path. -/
def pathJoin (a b : String) : String := a ++ "/" ++ b

/-- path.dirname for the destination paths used here, which always
    contain a slash: everything before the final slash. -/
def dirnameOf (p : String) : String :=
  String.mk ((((p.data.reverse).dropWhile (fun c => c ≠ '/')).drop 1).reverse)

/-- Per-item outcome of the install loop. -/
inductive Outcome where
  | success
  | failure (reason : String)
deriving DecidableEq

/-- One line of the install report. -/
structure ItemResult where
  key : String
  relPath : String
  outcome : Outcome
deriving DecidableEq

/-- Whether a report line is a Success. -/
def isSuccess (r : ItemResult) : Bool :=
  match r.outcome with
  | Outcome.success => true
  | Outcome.failure _ => false

/-- One iteration of the install loop for a key: keys without a catalog
    path are skipped; otherwise fetch the content, make the destination
    directory, and write, converting any failure into a Failure line. -/
def installStep (env : Env) (root : String) (fs : FS) (key : String) :
    Option ItemResult × FS :=
  match FILE_PATHS key with
  | none => (none, fs)
  | some filePath =>
    let destPath := pathJoin root filePath
    match fetchFile env filePath with
    | Except.error e => (some ⟨key, filePath, Outcome.failure e⟩, fs)
    | Except.ok content =>
      if env.mkdirOk (dirnameOf destPath) then
        if env.writeOk destPath then
          (some ⟨key, filePath, Outcome.success⟩, updateFS fs destPath content)
        else (some ⟨key, filePath, Outcome.failure (env.errMsgOf destPath)⟩, fs)
      else (some ⟨key, filePath, Outcome.failure (env.errMsgOf (dirnameOf destPath))⟩, fs)

/-- The install loop over the files-to-install list, accumulating the
    report lines, the installed counter and the filesystem. -/
def installLoop (env : Env) (root : String) : List String → FS → List ItemResult × Nat × FS
  | [], fs => ([], 0, fs)
  | k :: ks, fs =>
    match installStep env root fs k with
    | (none, fs1) => installLoop env root ks fs1
    | (some r, fs1) =>
      let rest := installLoop env root ks fs1
      (r :: rest.1, (if isSuccess r then 1 else 0) + rest.2.1, rest.2.2)

/-- The report line the loop produces for a key.  The line part of
    installStep never reads the filesystem accumulator, so this is taken
    over the empty filesystem. -/
def lineOf (env : Env) (root : String) (key : String) : Option ItemResult :=
  (installStep env root emptyFS key).1

/-- The title looked up by value in an OPTIONS table; a failed find gives
    undefined, which a template literal renders as the text undefined. -/
def findTitle (opts : List OptionEntry) (v : String) : String :=
  match opts.find? (fun o => o.value == v) with
  | some o => o.title
  | none => "undefined"

/-- One generated reference line for a frontend framework. -/
def frontendRefLine (f : String) : String :=
  "- **" ++ findTitle frontendFrameworkOptions f ++ "**: See [frameworks/frontend/"
    ++ f ++ ".md](frameworks/frontend/" ++ f ++ ".md)"

/-- One generated reference line for a backend framework. -/
def backendRefLine (f : String) : String :=
  "- **" ++ findTitle backendFrameworkOptions f ++ "**: See [frameworks/backend/"
    ++ f ++ ".md](frameworks/backend/" ++ f ++ ".md)"

/-- One generated reference line for a language. -/
def languageRefLine (l : String) : String :=
  "- **" ++ findTitle languageOptions l ++ "**: See [languages/" ++ l
    ++ ".md](languages/" ++ l ++ ".md)"

/-- Array.prototype.join with a newline separator. -/
def joinNL : List String → String
  | [] => ""
  | [x] => x
  | x :: y :: t => x ++ "\n" ++ joinNL (y :: t)

/-- The Frontend Frameworks group of the generated section (empty when no
    frontend framework was selected). -/
def frontendBlock (s : Selections) : String :=
  let refs := joinNL (s.frontendFrameworks.map frontendRefLine)
  if refs = "" then "" else "### Frontend Frameworks\n" ++ refs ++ "\n\n"

/-- The Backend Frameworks group of the generated section. -/
def backendBlock (s : Selections) : String :=
  let refs := joinNL (s.backendFrameworks.map backendRefLine)
  if refs = "" then "" else "### Backend Frameworks\n" ++ refs ++ "\n\n"

/-- The Languages group of the generated section. -/
def languageBlock (s : Selections) : String :=
  let refs := joinNL (s.languages.map languageRefLine)
  if refs = "" then "" else "### Languages\n" ++ refs ++ "\n\n"

/-- The General group of the generated section, present exactly when the
    api toggle is on. -/
def generalBlock (s : Selections) : String :=
  if s.includeApi then "### General\n- **API / HTTP**: See [api.md](api.md)\n\n" else ""

/-- The fixed text opening the generated section. -/
def sectionIntro : String :=
  "## Stack-Specific References\n\nFor detailed conventions per framework or language, read the relevant reference file:\n\n"

/-- The fixed text closing the generated section. -/
def sectionOutro : String :=
  "Read the appropriate reference file based on the project\x27s stack before generating code."

/-- The replacement section generateSkillFile builds: intro, then the
    frontend, backend, language and general groups in that fixed order,
    then the closing sentence. -/
def refSectionFor (s : Selections) : String :=
  sectionIntro ++ frontendBlock s ++ backendBlock s ++ languageBlock s
    ++ generalBlock s ++ sectionOutro

/-- The start-of-section marker of the replace regex. -/
def startMarker : List Char := "## Stack-Specific References".data

/-- The lookahead end marker of the replace regex. -/
def endMarker : List Char := "## Self-Healing".data

/-- The known language keys. -/
def languageValues : List String := languageOptions.map (fun o => o.value)

/-- The known frontend framework keys. -/
def frontendValues : List String := frontendFrameworkOptions.map (fun o => o.value)

/-- The known backend framework keys. -/
def backendValues : List String := backendFrameworkOptions.map (fun o => o.value)

/-- Does pat match at the beginning of s? -/
def matchesAt : List Char → List Char → Bool
  | [], _ => true
  | _ :: _, [] => false
  | c :: ps, d :: ss => c == d && matchesAt ps ss

/-- Index of the first occurrence of pat in s. -/
def findSub (pat : List Char) : List Char → Option Nat
  | [] => if matchesAt pat [] then some 0 else none
  | d :: ss =>
    if matchesAt pat (d :: ss) then some 0
    else (findSub pat ss).map (· + 1)

/-- Whether pat occurs anywhere in s. -/
def hasOcc (pat s : List Char) : Bool := (findSub pat s).isSome

/-- pat occurs nowhere in s. -/
def noOcc (pat s : List Char) : Prop :=
  ∀ j, matchesAt pat (s.drop j) = false

/-- pat has no nontrivial period (equivalently, no nontrivial border). -/
def noPeriod (pat : List Char) : Prop :=
  ∀ a, a < pat.length → 0 < a → pat.drop a ≠ pat.take (pat.length - a)

/-- skillContent.replace for the non-global lazy regex with a lookahead:
    replace from the first start-marker occurrence that has an end marker
    after it, up to but not including the first such end marker.  The
    replacement text contains no dollar patterns for catalog selections,
    so plain splicing models String.prototype.replace. -/
def spliceSection (doc repl : List Char) : List Char :=
  match findSub startMarker doc with
  | none => doc
  | some i =>
    match findSub endMarker (doc.drop (i + startMarker.length)) with
    | none => doc
    | some j => doc.take i ++ repl ++ doc.drop (i + startMarker.length + j)

/-- generateSkillFile without its I/O: the pure text transform applied to
    the base SKILL.md content for a given selection. -/
def generateSkillContent (skillContent : String) (s : Selections) : String :=
  String.mk (spliceSection skillContent.data (refSectionFor s ++ "\n\n").data)

/-- main() from the point where the install path is known: create the
    four directories (a failure there rejects before any item runs), run
    the install loop, then regenerate SKILL.md from the base content.
    Returns the final filesystem and either the installed count or the
    error main rejects with. -/
def runMain (env : Env) (root : String) (s : Selections) (fs0 : FS) :
    FS × Except String Nat :=
  if env.mkdirOk root then
    if env.mkdirOk (pathJoin root "languages") then
      if env.mkdirOk (pathJoin root "frameworks/frontend") then
        if env.mkdirOk (pathJoin root "frameworks/backend") then
          let run := installLoop env root (filesToInstall s) fs0
          match fetchFile env "SKILL.md" with
          | Except.error e => (run.2.2, Except.error e)
          | Except.ok base =>
            let dest := pathJoin root "SKILL.md"
            if env.writeOk dest then
              (updateFS run.2.2 dest (generateSkillContent base s), Except.ok run.2.1)
            else (run.2.2, Except.error (env.errMsgOf dest))
        else (fs0, Except.error (env.errMsgOf (pathJoin root "frameworks/backend")))
      else (fs0, Except.error (env.errMsgOf (pathJoin root "frameworks/frontend")))
    else (fs0, Except.error (env.errMsgOf (pathJoin root "languages")))
  else (fs0, Except.error (env.errMsgOf root))

/-- main().catch(console.error): a rejected main promise is logged, not
    rethrown, so the node process exit status is 0 whether main resolved
    or rejected. -/
def mainExit (env : Env) (root : String) (s : Selections) (fs0 : FS) : Nat :=
  match (runMain env root s fs0).2 with
  | Except.ok _ => 0
  | Except.error _ => 0

/-- One printed line of the install.sh run. -/
inductive ShLine where
  | success (dest : String)
  | failure (dest : String)
deriving DecidableEq

/-- The download section of install.sh main under set -e: download_file
    prints a per-item success or failure marker and returns the curl
    status, but each call is a plain statement, so a call returning 1
    terminates the whole script and the remaining downloads never run. -/
def shDownloads (curlOk : String → Bool) : List (String × String) → List ShLine
  | [] => []
  | (url, dest) :: rest =>
    if curlOk url then ShLine.success dest :: shDownloads curlOk rest
    else [ShLine.failure dest]

/-- The remote content base URL of install.sh. -/
def SH_REPO_URL : String := "https://raw.githubusercontent.com/Zokor/agent-conventions/main"

/-- The url/dest download list install.sh builds: SKILL.md and api.md
    always, then the selected languages, frontend and backend
    frameworks. -/
def shItems (dir : String) (langs fr bk : List String) : List (String × String) :=
  (SH_REPO_URL ++ "/SKILL.md", dir ++ "/SKILL.md")
    :: (SH_REPO_URL ++ "/api.md", dir ++ "/api.md")
    :: (langs.map (fun l => (SH_REPO_URL ++ "/languages/" ++ l ++ ".md",
          dir ++ "/languages/" ++ l ++ ".md"))
      ++ fr.map (fun f => (SH_REPO_URL ++ "/frameworks/frontend/" ++ f ++ ".md",
          dir ++ "/frameworks/frontend/" ++ f ++ ".md"))
      ++ bk.map (fun f => (SH_REPO_URL ++ "/frameworks/backend/" ++ f ++ ".md",
          dir ++ "/frameworks/backend/" ++ f ++ ".md")))

/-- A curl oracle where every download fails. -/
def curlAllFail : String → Bool := fun _ => false

/-- Environment where every filesystem operation succeeds, the bundled
    templates serve nothing, and the remote serves every request. -/
def envRemoteOnly : Env :=
  ⟨fun _ => none, fun u => RemoteResult.response 200 ("remote:" ++ u),
   fun _ => true, fun _ => true, fun p => "EACCES: " ++ p⟩

/-- Environment where the local read fails and the remote returns 404. -/
def env404 : Env :=
  ⟨fun _ => none, fun _ => RemoteResult.response 404 "not found",
   fun _ => true, fun _ => true, fun p => "EACCES: " ++ p⟩

/-- Environment where no directory can be created. -/
def envNoRoot : Env :=
  ⟨fun _ => none, fun u => RemoteResult.response 200 ("remote:" ++ u),
   fun _ => false, fun _ => true, fun p => "EACCES: " ++ p⟩

/-- A small base SKILL.md document with both markers, for witnesses. -/
def skillBase : String :=
  "# Agent Conventions\n\n## Universal Rules\n\ntext\n\n## Stack-Specific References\n\nold body\n\n## Self-Healing Workflow\n\nsteps"

/-- A concrete valid selection, for witnesses. -/
def c7Input : Selections := ⟨["go"], ["react"], [], true, none, none⟩

end AgentConventions

namespace AgentConventions

/-- Proof support: the outcome the loop body produces for a catalog path,
    isolated from the report bookkeeping. -/
def outcomeOf (env : Env) (root : String) (p : String) : Outcome :=
  match fetchFile env p with
  | Except.error e => Outcome.failure e
  | Except.ok _ =>
    if env.mkdirOk (dirnameOf (pathJoin root p)) then
      if env.writeOk (pathJoin root p) then Outcome.success
      else Outcome.failure (env.errMsgOf (pathJoin root p))
    else Outcome.failure (env.errMsgOf (dirnameOf (pathJoin root p)))

/-- Proof support: a write list applied in order, later writes overriding
    earlier ones. -/
def applyWrites : List (String × String) → FS → FS
  | [], fs => fs
  | (p, v) :: ws, fs => applyWrites ws (updateFS fs p v)

/-- Proof support: the write one loop iteration performs; it is determined
    by the environment alone. -/
def stepWrite (env : Env) (root : String) (k : String) : Option (String × String) :=
  match FILE_PATHS k with
  | none => none
  | some filePath =>
    match fetchFile env filePath with
    | Except.error _ => none
    | Except.ok content =>
      if env.mkdirOk (dirnameOf (pathJoin root filePath)) then
        if env.writeOk (pathJoin root filePath) then
          some (pathJoin root filePath, content)
        else none
      else none

/-- Proof support: all writes of the install loop over a selection. -/
def loopWrites (env : Env) (root : String) : List String → List (String × String)
  | [] => []
  | k :: ks =>
    match stepWrite env root k with
    | none => loopWrites env root ks
    | some w => w :: loopWrites env root ks

/-- Proof support: all writes of one full main run, as determined by the
    environment, root and selections alone. -/
def runWrites (env : Env) (root : String) (s : Selections) : List (String × String) :=
  if env.mkdirOk root && env.mkdirOk (pathJoin root "languages")
      && env.mkdirOk (pathJoin root "frameworks/frontend")
      && env.mkdirOk (pathJoin root "frameworks/backend") then
    loopWrites env root (filesToInstall s) ++
      (match fetchFile env "SKILL.md" with
       | Except.error _ => []
       | Except.ok base =>
         if env.writeOk (pathJoin root "SKILL.md") then
           [(pathJoin root "SKILL.md", generateSkillContent base s)]
         else [])
  else []

/-- Proof support: the last value a write list assigns to a path. -/
def lastVal : List (String × String) → String → Option String
  | [], _ => none
  | (p, v) :: ws, q =>
    match lastVal ws q with
    | some w => some w
    | none => if q = p then some v else none

/-! ## Theorems -/

/-- The report-line component of installStep does not read the filesystem
    accumulator. -/
theorem installStep_fst (env : Env) (root : String) (fs : FS) (k : String) :
    (installStep env root fs k).1 = lineOf env root k := by
  unfold lineOf installStep
  cases FILE_PATHS k with
  | none => rfl
  | some p =>
    dsimp only
    cases fetchFile env p with
    | error e => rfl
    | ok c =>
      by_cases h1 : env.mkdirOk (dirnameOf (pathJoin root p))
      · by_cases h2 : env.writeOk (pathJoin root p) <;> simp [h1, h2]
      · simp [h1]

/-- The per-key report line, in closed form. -/
theorem lineOf_eq (env : Env) (root : String) (k : String) :
    lineOf env root k
      = (FILE_PATHS k).map (fun p => ItemResult.mk k p (outcomeOf env root p)) := by
  unfold lineOf installStep outcomeOf
  cases FILE_PATHS k with
  | none => rfl
  | some p =>
    dsimp only [Option.map]
    cases fetchFile env p with
    | error e => rfl
    | ok c =>
      by_cases h1 : env.mkdirOk (dirnameOf (pathJoin root p))
      · by_cases h2 : env.writeOk (pathJoin root p) <;> simp [h1, h2]
      · simp [h1]

/-- The loop report is the per-key line map over the selection: every key
    is processed, in order, regardless of the outcomes of the others. -/
theorem installLoop_report (env : Env) (root : String) (ks : List String) (fs : FS) :
    (installLoop env root ks fs).1 = ks.filterMap (lineOf env root) := by
  induction ks generalizing fs with
  | nil => rfl
  | cons k ks ih =>
    have hfst := installStep_fst env root fs k
    rcases h : installStep env root fs k with ⟨line, fs1⟩
    rw [h] at hfst
    rw [List.filterMap_cons, ← hfst]
    show (installLoop env root (k :: ks) fs).1 = _
    unfold installLoop
    rw [h]
    cases line with
    | none => exact ih fs1
    | some r => simp only []; rw [ih fs1]

/-- The installed counter counts exactly the Success report lines. -/
theorem installLoop_count (env : Env) (root : String) (ks : List String) (fs : FS) :
    (installLoop env root ks fs).2.1 =
      ((installLoop env root ks fs).1.filter (fun r => isSuccess r)).length := by
  induction ks generalizing fs with
  | nil => rfl
  | cons k ks ih =>
    rcases h : installStep env root fs k with ⟨line, fs1⟩
    unfold installLoop
    rw [h]
    cases line with
    | none => exact ih fs1
    | some r =>
      simp only [List.filter_cons]
      cases hr : isSuccess r <;> simp [hr, ih fs1, Nat.add_comm]

/-- The cons unfolding of the install loop. -/
theorem installLoop_cons (env : Env) (root : String) (k : String) (ks : List String)
    (fs : FS) :
    installLoop env root (k :: ks) fs =
      match installStep env root fs k with
      | (none, fs1) => installLoop env root ks fs1
      | (some r, fs1) =>
        let rest := installLoop env root ks fs1
        (r :: rest.1, (if isSuccess r then 1 else 0) + rest.2.1, rest.2.2) := rfl

/-- A key without a catalog path leaves the loop state untouched. -/
theorem installLoop_skip (env : Env) (root : String) (ys : List String) (fs : FS)
    (k : String) (h : FILE_PATHS k = none) :
    installLoop env root (k :: ys) fs = installLoop env root ys fs := by
  have hstep : installStep env root fs k = (none, fs) := by
    unfold installStep; rw [h]
  rw [installLoop_cons, hstep]

/-- C5 counterexample input: includeApi is off but the languages set
    itself contains the api key. -/
def c5Input : Selections :=
  ⟨["api"], [], [], false, none, none⟩

/-- C5: the claim states the api key sits at position two exactly when the
    include-API toggle is true.  On this input the toggle is false and yet
    the api key is at position two of the built selection, because the
    builder concatenates the raw input sets without filtering. -/
theorem c5_api_position_cex :
    (filesToInstall c5Input).get? 1 = some "api" ∧ c5Input.includeApi = false := by
  constructor <;> rfl

/-- C5 amended: for raw inputs whose three sets do not contain the api key,
    the built selection starts with the core key, has the api key at
    position two exactly when the toggle is true, and continues with
    languages, frontend frameworks and backend frameworks in input order. -/
theorem c5_selection_order_amended (s : Selections)
    (hl : "api" ∉ s.languages) (hf : "api" ∉ s.frontendFrameworks)
    (hb : "api" ∉ s.backendFrameworks) :
    (filesToInstall s).get? 0 = some "core" ∧
    ((filesToInstall s).get? 1 = some "api" ↔ s.includeApi = true) ∧
    (filesToInstall s).drop (if s.includeApi then 2 else 1) =
      s.languages ++ s.frontendFrameworks ++ s.backendFrameworks := by
  unfold filesToInstall
  cases hApi : s.includeApi with
  | true =>
    refine ⟨rfl, ⟨fun _ => rfl, fun _ => rfl⟩, rfl⟩
  | false =>
    refine ⟨rfl, ⟨?_, fun h => by simp at h⟩, rfl⟩
    intro h
    have h0 : (s.languages ++ (s.frontendFrameworks ++ s.backendFrameworks)).get? 0
        = some "api" := by
      simpa using h
    have hmem := List.get?_mem h0
    rcases List.mem_append.mp hmem with h2 | h2
    · exact absurd h2 hl
    rcases List.mem_append.mp h2 with h3 | h3
    · exact absurd h3 hf
    · exact absurd h3 hb

/-- C5 amended witness at a concrete input. -/
theorem c5_selection_order_amended_witness :
    (filesToInstall ⟨["go"], [], ["laravel"], true, none, none⟩).get? 0 = some "core" ∧
    ((filesToInstall ⟨["go"], [], ["laravel"], true, none, none⟩).get? 1 = some "api" ↔
      (⟨["go"], [], ["laravel"], true, none, none⟩ : Selections).includeApi = true) ∧
    (filesToInstall ⟨["go"], [], ["laravel"], true, none, none⟩).drop
        (if (⟨["go"], [], ["laravel"], true, none, none⟩ : Selections).includeApi then 2 else 1) =
      ["go"] ++ [] ++ ["laravel"] :=
  c5_selection_order_amended ⟨["go"], [], ["laravel"], true, none, none⟩
    (by decide) (by decide) (by decide)

/-- C6 counterexample input: the same key appears in two input sets. -/
def c6Input : Selections :=
  ⟨["go"], [], ["go"], false, none, none⟩

/-- C6: the claim states the built selection contains each key at most
    once.  With the key go present in both the languages set and the
    backend set it appears twice in the built selection: the builder
    performs no deduplication. -/
theorem c6_duplicate_keys_cex :
    (filesToInstall c6Input).count "go" = 2 := by
  decide

/-- C6 amended: the built selection is duplicate-free provided the three
    input sets are each duplicate-free, pairwise disjoint, and contain
    neither the core key nor the api key — which is the shape of every
    input the CLI prompts or the all flag can produce.  In general the
    builder does not deduplicate. -/
theorem c6_nodup_amended (s : Selections)
    (h1 : s.languages.Nodup) (h2 : s.frontendFrameworks.Nodup)
    (h3 : s.backendFrameworks.Nodup)
    (d12 : ∀ x ∈ s.languages, x ∉ s.frontendFrameworks)
    (d13 : ∀ x ∈ s.languages, x ∉ s.backendFrameworks)
    (d23 : ∀ x ∈ s.frontendFrameworks, x ∉ s.backendFrameworks)
    (hc : ∀ x ∈ s.languages ++ s.frontendFrameworks ++ s.backendFrameworks,
      x ≠ "core" ∧ x ≠ "api") :
    (filesToInstall s).Nodup := by
  unfold filesToInstall
  have hrest : (s.languages ++ s.frontendFrameworks ++ s.backendFrameworks).Nodup := by
    rw [List.nodup_append, List.nodup_append]
    exact ⟨⟨h1, h2, d12⟩, h3, fun x hx => by
      rcases List.mem_append.mp hx with h | h
      · exact d13 x h
      · exact d23 x h⟩
  have hcore : "core" ∉ s.languages ++ s.frontendFrameworks ++ s.backendFrameworks := by
    intro hmem
    exact (hc _ hmem).1 rfl
  have hapi : "api" ∉ s.languages ++ s.frontendFrameworks ++ s.backendFrameworks := by
    intro hmem
    exact (hc _ hmem).2 rfl
  have hrest' : (s.languages ++ (s.frontendFrameworks ++ s.backendFrameworks)).Nodup := by
    rwa [← List.append_assoc]
  have hcore' : "core" ∉ s.languages ++ (s.frontendFrameworks ++ s.backendFrameworks) := by
    rwa [← List.append_assoc]
  have hapi' : "api" ∉ s.languages ++ (s.frontendFrameworks ++ s.backendFrameworks) := by
    rwa [← List.append_assoc]
  cases hApi : s.includeApi with
  | true =>
    simp only [if_pos, List.cons_append, List.nil_append, List.append_assoc,
      List.nodup_cons, List.mem_cons]
    refine ⟨?_, hapi', hrest'⟩
    push_neg
    exact ⟨by decide, hcore'⟩
  | false =>
    simp only [if_neg, List.cons_append, List.nil_append, List.append_assoc,
      List.nodup_cons]
    exact ⟨hcore', hrest'⟩

/-- C2: after the install loop finishes, the installed counter equals the
    number of Success report lines, and the report lists exactly the
    attempted keys — those present in the catalog — once each, in
    selection order. -/
theorem c2_report_count_and_order (env : Env) (root : String) (sel : List String)
    (fs : FS) :
    (installLoop env root sel fs).2.1 =
      ((installLoop env root sel fs).1.filter (fun r => isSuccess r)).length ∧
    (installLoop env root sel fs).1.map (fun r => r.key) =
      sel.filter (fun k => (FILE_PATHS k).isSome) := by
  refine ⟨installLoop_count env root sel fs, ?_⟩
  rw [installLoop_report]
  induction sel with
  | nil => rfl
  | cons k ks ih =>
    rw [List.filterMap_cons, List.filter_cons, lineOf_eq]
    cases hp : FILE_PATHS k with
    | none => simpa using ih
    | some p => simpa using ih

/-- C10: a key with no catalog entry is skipped entirely: no report line,
    no resolution, no write, no count change — the loop over a selection
    with the unknown key inserted equals the loop without it, and the
    report is shorter than the selection. -/
theorem c10_unknown_key_skipped (env : Env) (root : String) (fs : FS)
    (xs ys : List String) (k : String) (h : FILE_PATHS k = none) :
    installLoop env root (xs ++ k :: ys) fs = installLoop env root (xs ++ ys) fs ∧
    (installLoop env root (xs ++ k :: ys) fs).1.length < (xs ++ k :: ys).length := by
  have main : ∀ fs : FS,
      installLoop env root (xs ++ k :: ys) fs = installLoop env root (xs ++ ys) fs := by
    induction xs with
    | nil => exact fun fs => installLoop_skip env root ys fs k h
    | cons x xs ih =>
      intro fs
      show installLoop env root (x :: (xs ++ k :: ys)) fs
        = installLoop env root (x :: (xs ++ ys)) fs
      rw [installLoop_cons, installLoop_cons]
      rcases hx : installStep env root fs x with ⟨line, fs1⟩
      cases line with
      | none => exact ih fs1
      | some r => simp [ih fs1]
  refine ⟨main fs, ?_⟩
  rw [main fs, installLoop_report]
  calc (List.filterMap (lineOf env root) (xs ++ ys)).length
      ≤ (xs ++ ys).length := List.length_filterMap_le _ _
    _ < (xs ++ k :: ys).length := by simp [List.length_append]

/-- C10 witness at a concrete unknown key. -/
theorem c10_unknown_key_skipped_witness :
    FILE_PATHS "djangox" = none ∧
    installLoop envRemoteOnly "/dest" (["core"] ++ "djangox" :: ["go"]) emptyFS
      = installLoop envRemoteOnly "/dest" (["core"] ++ ["go"]) emptyFS ∧
    (installLoop envRemoteOnly "/dest" (["core"] ++ "djangox" :: ["go"]) emptyFS).1.length
      < (["core"] ++ "djangox" :: ["go"]).length :=
  ⟨rfl,
   (c10_unknown_key_skipped envRemoteOnly "/dest" emptyFS ["core"] ["go"] "djangox" rfl).1,
   (c10_unknown_key_skipped envRemoteOnly "/dest" emptyFS ["core"] ["go"] "djangox" rfl).2⟩

/-- C9: the claim requires a non-zero exit status when the destination
    root cannot be created (and also when nothing installed).  Here root
    creation fails, main rejects with the mkdir error, the rejection is
    caught and logged by the final catch, and the process exit status is
    still 0. -/
theorem c9_exit_zero_cex :
    envNoRoot.mkdirOk "/dest" = false ∧
    (runMain envNoRoot "/dest" ⟨[], [], [], true, none, none⟩ emptyFS).2
      = Except.error "EACCES: /dest" ∧
    mainExit envNoRoot "/dest" ⟨[], [], [], true, none, none⟩ emptyFS = 0 := by
  refine ⟨rfl, ?_, rfl⟩
  rfl

/-- C9 amended: the Node process exit status is zero on every run — main
    rejections (root creation failure, SKILL.md regeneration failure) are
    caught by main().catch(console.error) and only logged, and a run with
    zero installed items resolves normally. -/
theorem c9_exit_always_zero_amended (env : Env) (root : String) (s : Selections)
    (fs0 : FS) : mainExit env root s fs0 = 0 := by
  unfold mainExit
  split <;> rfl

/-- C1: evaluation of install.sh at the failing input.  Every curl fails;
    the selection yields four download items, but under set -e the script
    terminates at the first download_file call that returns 1: the report
    holds a single Failure line and the remaining three items are never
    attempted.  (The Node CLI loop, by contrast, reports every item and
    keeps going.) -/
theorem c1_sh_abort_on_first_failure :
    (shItems "/dest" ["go"] [] ["laravel"]).length = 4 ∧
    shDownloads curlAllFail (shItems "/dest" ["go"] [] ["laravel"])
      = [ShLine.failure "/dest/SKILL.md"] := by
  exact ⟨rfl, rfl⟩

/-- C8: the claim says a failed resolution ends in an error carrying the
    relative path.  With the local read failing and the remote answering
    404, the resolver throws exactly the text HTTP 404, in which the
    relative path does not occur. -/
theorem c8_error_path_cex :
    fetchFile env404 "languages/go.md" = Except.error "HTTP 404" ∧
    hasOcc "languages/go.md".data "HTTP 404".data = false := by
  exact ⟨rfl, rfl⟩

/-- C8 amended: after a local failure, a non-ok response fails resolution
    with an error carrying the underlying cause as `HTTP status`, and a
    transport error is rethrown as is; the relative path is not part of
    the resolver error — the installer pairs it with the message only in
    the per-item report line. -/
theorem c8_error_cause_amended (env : Env) (p : String)
    (hlocal : env.localRead p = none) :
    (∀ st b, env.remote (REPO_URL ++ "/" ++ p) = RemoteResult.response st b →
      statusOk st = false →
      fetchFile env p = Except.error ("HTTP " ++ toString st)) ∧
    (∀ m, env.remote (REPO_URL ++ "/" ++ p) = RemoteResult.transportError m →
      fetchFile env p = Except.error m) ∧
    (∀ root k e, FILE_PATHS k = some p → fetchFile env p = Except.error e →
      lineOf env root k = some ⟨k, p, Outcome.failure e⟩) := by
  refine ⟨?_, ?_, ?_⟩
  · intro st b hr hs
    simp [fetchFile, hlocal, hr, hs]
  · intro m hr
    simp [fetchFile, hlocal, hr]
  · intro root k e hk hf
    rw [lineOf_eq, hk]
    simp [outcomeOf, hf]

/-- C8 amended witness at a concrete environment and path. -/
theorem c8_error_cause_amended_witness :
    env404.localRead "languages/go.md" = none ∧
    ((∀ st b, env404.remote (REPO_URL ++ "/" ++ "languages/go.md")
        = RemoteResult.response st b →
      statusOk st = false →
      fetchFile env404 "languages/go.md" = Except.error ("HTTP " ++ toString st)) ∧
    (∀ m, env404.remote (REPO_URL ++ "/" ++ "languages/go.md")
        = RemoteResult.transportError m →
      fetchFile env404 "languages/go.md" = Except.error m) ∧
    (∀ root k e, FILE_PATHS k = some "languages/go.md" →
      fetchFile env404 "languages/go.md" = Except.error e →
      lineOf env404 root k = some ⟨k, "languages/go.md", Outcome.failure e⟩)) :=
  ⟨rfl, c8_error_cause_amended env404 "languages/go.md" rfl⟩

/-- C4: when the local read fails but the remote responds with a success
    status, resolution succeeds with the remote payload; such an item is
    recorded in the report as a Success provided its own directory and
    write calls succeed; and an item recorded as a Failure whose
    filesystem calls are fine has both of its sources failing. -/
theorem c4_remote_fallback (env : Env) (p : String) (st : Nat) (b : String)
    (hlocal : env.localRead p = none)
    (hremote : env.remote (REPO_URL ++ "/" ++ p) = RemoteResult.response st b)
    (hok : statusOk st = true) :
    fetchFile env p = Except.ok b ∧
    (∀ root sel fs k, k ∈ sel → FILE_PATHS k = some p →
      env.mkdirOk (dirnameOf (pathJoin root p)) = true →
      env.writeOk (pathJoin root p) = true →
      ItemResult.mk k p Outcome.success ∈ (installLoop env root sel fs).1) ∧
    (∀ root sel fs k q r, FILE_PATHS k = some q →
      env.mkdirOk (dirnameOf (pathJoin root q)) = true →
      env.writeOk (pathJoin root q) = true →
      ItemResult.mk k q (Outcome.failure r) ∈ (installLoop env root sel fs).1 →
      env.localRead q = none ∧
      remoteFails (env.remote (REPO_URL ++ "/" ++ q)) = true) := by
  have hfetch : fetchFile env p = Except.ok b := by
    simp [fetchFile, hlocal, hremote, hok]
  refine ⟨hfetch, ?_, ?_⟩
  · intro root sel fs k hk hkp h1 h2
    rw [installLoop_report]
    refine List.mem_filterMap.mpr ⟨k, hk, ?_⟩
    rw [lineOf_eq, hkp]
    simp [outcomeOf, hfetch, h1, h2]
  · intro root sel fs k q r hkq h1 h2 hmem
    rw [installLoop_report] at hmem
    rcases List.mem_filterMap.mp hmem with ⟨k', hk', hline⟩
    rw [lineOf_eq] at hline
    cases hp' : FILE_PATHS k' with
    | none => rw [hp'] at hline; simp at hline
    | some q' =>
      rw [hp'] at hline
      simp only [Option.map_some'] at hline
      have hline' : ItemResult.mk k' q' (outcomeOf env root q')
          = ItemResult.mk k q (Outcome.failure r) := Option.some.inj hline
      have hrel : q' = q := congrArg ItemResult.relPath hline'
      have hout : outcomeOf env root q = Outcome.failure r := by
        have h3 := congrArg ItemResult.outcome hline'
        simpa [hrel] using h3
      unfold outcomeOf at hout
      cases hf : fetchFile env q with
      | ok c => rw [hf] at hout; simp [h1, h2] at hout
      | error e =>
        unfold fetchFile at hf
        cases hl : env.localRead q with
        | some c => rw [hl] at hf; simp at hf
        | none =>
          rw [hl] at hf
          refine ⟨rfl, ?_⟩
          cases hr : env.remote (REPO_URL ++ "/" ++ q) with
          | transportError m => simp [remoteFails]
          | response st' b' =>
            rw [hr] at hf
            dsimp only at hf
            by_cases hs : statusOk st' = true
            · rw [if_pos hs] at hf
              simp at hf
            · simp [remoteFails, hs]

/-- C4 witness at a concrete environment and path. -/
theorem c4_remote_fallback_witness :
    envRemoteOnly.localRead "frameworks/backend/laravel.md" = none ∧
    envRemoteOnly.remote (REPO_URL ++ "/" ++ "frameworks/backend/laravel.md")
      = RemoteResult.response 200
          ("remote:" ++ (REPO_URL ++ "/" ++ "frameworks/backend/laravel.md")) ∧
    statusOk 200 = true ∧
    (fetchFile envRemoteOnly "frameworks/backend/laravel.md"
      = Except.ok ("remote:" ++ (REPO_URL ++ "/" ++ "frameworks/backend/laravel.md")) ∧
    (∀ root sel fs k, k ∈ sel → FILE_PATHS k = some "frameworks/backend/laravel.md" →
      envRemoteOnly.mkdirOk (dirnameOf (pathJoin root "frameworks/backend/laravel.md")) = true →
      envRemoteOnly.writeOk (pathJoin root "frameworks/backend/laravel.md") = true →
      ItemResult.mk k "frameworks/backend/laravel.md" Outcome.success
        ∈ (installLoop envRemoteOnly root sel fs).1) ∧
    (∀ root sel fs k q r, FILE_PATHS k = some q →
      envRemoteOnly.mkdirOk (dirnameOf (pathJoin root q)) = true →
      envRemoteOnly.writeOk (pathJoin root q) = true →
      ItemResult.mk k q (Outcome.failure r) ∈ (installLoop envRemoteOnly root sel fs).1 →
      envRemoteOnly.localRead q = none ∧
      remoteFails (envRemoteOnly.remote (REPO_URL ++ "/" ++ q)) = true)) :=
  ⟨rfl, rfl, rfl,
   c4_remote_fallback envRemoteOnly "frameworks/backend/laravel.md" 200
     ("remote:" ++ (REPO_URL ++ "/" ++ "frameworks/backend/laravel.md")) rfl rfl rfl⟩

/-- The filesystem component of installStep, through stepWrite. -/
theorem installStep_snd (env : Env) (root : String) (fs : FS) (k : String) :
    (installStep env root fs k).2 =
      match stepWrite env root k with
      | none => fs
      | some pv => updateFS fs pv.1 pv.2 := by
  unfold installStep stepWrite
  cases FILE_PATHS k with
  | none => rfl
  | some p =>
    dsimp only
    cases fetchFile env p with
    | error e => rfl
    | ok c =>
      by_cases h1 : env.mkdirOk (dirnameOf (pathJoin root p))
      · by_cases h2 : env.writeOk (pathJoin root p) <;> simp [h1, h2]
      · simp [h1]

/-- The final loop filesystem is the write list applied in order. -/
theorem installLoop_fs (env : Env) (root : String) (ks : List String) (fs : FS) :
    (installLoop env root ks fs).2.2 = applyWrites (loopWrites env root ks) fs := by
  induction ks generalizing fs with
  | nil => rfl
  | cons k ks ih =>
    rw [installLoop_cons]
    have hsnd := installStep_snd env root fs k
    rcases h : installStep env root fs k with ⟨line, fs1⟩
    rw [h] at hsnd
    dsimp only at hsnd
    unfold loopWrites
    cases hw : stepWrite env root k with
    | none =>
      rw [hw] at hsnd
      dsimp only at hsnd
      cases line <;> dsimp only <;> rw [ih fs1, hsnd]
    | some w =>
      rw [hw] at hsnd
      rcases w with ⟨p, v⟩
      dsimp only at hsnd
      cases line <;> dsimp only <;> rw [ih fs1, hsnd] <;> rfl

/-- Writes in sequence: append. -/
theorem applyWrites_append (a b : List (String × String)) (fs : FS) :
    applyWrites (a ++ b) fs = applyWrites b (applyWrites a fs) := by
  induction a generalizing fs with
  | nil => rfl
  | cons w a ih =>
    rcases w with ⟨p, v⟩
    exact ih (updateFS fs p v)

/-- The cons unfolding of lastVal. -/
theorem lastVal_cons (p v : String) (ws : List (String × String)) (q : String) :
    lastVal ((p, v) :: ws) q =
      match lastVal ws q with
      | some w => some w
      | none => if q = p then some v else none := rfl

/-- applyWrites looks up the last write to the path. -/
theorem applyWrites_lookup (ws : List (String × String)) (fs : FS) (q : String) :
    applyWrites ws fs q =
      match lastVal ws q with
      | some v => some v
      | none => fs q := by
  induction ws generalizing fs with
  | nil => rfl
  | cons w ws ih =>
    rcases w with ⟨p, v⟩
    show applyWrites ws (updateFS fs p v) q = _
    rw [ih, lastVal_cons]
    cases h : lastVal ws q with
    | some w' => rfl
    | none =>
      dsimp only
      unfold updateFS
      by_cases hq : q = p <;> simp [hq]

/-- Applying a write list twice equals applying it once, pointwise. -/
theorem applyWrites_idem (ws : List (String × String)) (fs : FS) (q : String) :
    applyWrites ws (applyWrites ws fs) q = applyWrites ws fs q := by
  rw [applyWrites_lookup, applyWrites_lookup]
  cases h : lastVal ws q with
  | some v => rfl
  | none => simp [applyWrites_lookup, h]

/-- One full main run factors through its environment-determined write
    list. -/
theorem runMain_fs (env : Env) (root : String) (s : Selections) (fs0 : FS) :
    (runMain env root s fs0).1 = applyWrites (runWrites env root s) fs0 := by
  unfold runMain runWrites
  cases m1 : env.mkdirOk root with
  | false => simp [m1, applyWrites]
  | true =>
  cases m2 : env.mkdirOk (pathJoin root "languages") with
  | false => simp [m1, m2, applyWrites]
  | true =>
  cases m3 : env.mkdirOk (pathJoin root "frameworks/frontend") with
  | false => simp [m1, m2, m3, applyWrites]
  | true =>
  cases m4 : env.mkdirOk (pathJoin root "frameworks/backend") with
  | false => simp [m1, m2, m3, m4, applyWrites]
  | true =>
  simp only [m1, m2, m3, m4, Bool.true_and, Bool.and_self, if_true]
  cases hf : fetchFile env "SKILL.md" with
  | error e =>
    dsimp only
    rw [List.append_nil, installLoop_fs]
  | ok base =>
    cases hw : env.writeOk (pathJoin root "SKILL.md") with
    | false =>
      simp only [hw, Bool.false_eq_true, if_false]
      rw [List.append_nil, installLoop_fs]
    | true =>
      simp only [hw, if_true]
      rw [applyWrites_append, installLoop_fs]
      rfl

/-- C3: running the installer twice against the same sources and the same
    destination root leaves every path with the same content as one run:
    every write — the per-item copies and the regenerated SKILL.md — is an
    overwrite with content derived from the environment alone, so the
    second run stores byte-identical content. -/
theorem c3_install_idempotent (env : Env) (root : String) (s : Selections)
    (fs0 : FS) (q : String) :
    (runMain env root s ((runMain env root s fs0).1)).1 q
      = (runMain env root s fs0).1 q := by
  simp only [runMain_fs]
  exact applyWrites_idem _ _ _

/-- matchesAt characterisation as a decomposition. -/
theorem matchesAt_iff (pat s : List Char) :
    matchesAt pat s = true ↔ ∃ t, s = pat ++ t := by
  induction pat generalizing s with
  | nil =>
    simp only [matchesAt, List.nil_append]
    exact ⟨fun _ => ⟨s, rfl⟩, fun _ => trivial⟩
  | cons c ps ih =>
    cases s with
    | nil =>
      simp only [matchesAt]
      constructor
      · intro h; cases h
      · rintro ⟨t, ht⟩; cases ht
    | cons d ss =>
      rw [show matchesAt (c :: ps) (d :: ss) = (c == d && matchesAt ps ss) from rfl,
        Bool.and_eq_true, beq_iff_eq, ih]
      constructor
      · rintro ⟨hcd, t, ht⟩
        refine ⟨t, ?_⟩
        rw [ht, hcd]
        rfl
      · rintro ⟨t, ht⟩
        rw [List.cons_append] at ht
        injection ht with h1 h2
        exact ⟨h1.symm, t, h2⟩

/-- A match is no longer than the text. -/
theorem matchesAt_length_le (pat s : List Char) (h : matchesAt pat s = true) :
    pat.length ≤ s.length := by
  obtain ⟨t, rfl⟩ := (matchesAt_iff pat s).mp h
  simp

/-- A match survives extending the text on the right. -/
theorem matchesAt_append (pat s u : List Char) (h : matchesAt pat s = true) :
    matchesAt pat (s ++ u) = true := by
  obtain ⟨t, rfl⟩ := (matchesAt_iff pat s).mp h
  exact (matchesAt_iff _ _).mpr ⟨t ++ u, by simp⟩

/-- A match that fits inside the left summand restricts to it. -/
theorem matchesAt_of_append_left (pat u w : List Char)
    (h : matchesAt pat (u ++ w) = true) (hlen : pat.length ≤ u.length) :
    matchesAt pat u = true := by
  obtain ⟨t, ht⟩ := (matchesAt_iff pat (u ++ w)).mp h
  have h2 : u = pat ++ t.take (u.length - pat.length) := by
    conv_lhs => rw [← List.take_left u w, ht]
    rw [List.take_append_eq_append_take, List.take_of_length_le hlen]
  exact (matchesAt_iff pat u).mpr ⟨_, h2⟩

/-- The cons unfolding of findSub. -/
theorem findSub_cons (pat : List Char) (d : Char) (ss : List Char) :
    findSub pat (d :: ss) =
      if matchesAt pat (d :: ss) then some 0
      else (findSub pat ss).map (· + 1) := rfl

/-- A findSub hit is a match, and the first one. -/
theorem findSub_some (pat s : List Char) (i : Nat) (h : findSub pat s = some i) :
    matchesAt pat (s.drop i) = true ∧ ∀ j, j < i → matchesAt pat (s.drop j) = false := by
  induction s generalizing i with
  | nil =>
    unfold findSub at h
    by_cases hm : matchesAt pat [] = true
    · rw [if_pos hm] at h
      injection h with h
      subst h
      exact ⟨hm, fun j hj => absurd hj (by omega)⟩
    · rw [if_neg hm] at h
      cases h
  | cons d ss ih =>
    rw [findSub_cons] at h
    by_cases hm : matchesAt pat (d :: ss) = true
    · rw [if_pos hm] at h
      injection h with h
      subst h
      exact ⟨hm, fun j hj => absurd hj (by omega)⟩
    · rw [if_neg hm] at h
      cases hf : findSub pat ss with
      | none => rw [hf] at h; cases h
      | some i' =>
        rw [hf] at h
        simp only [Option.map_some'] at h
        injection h with h
        obtain ⟨hm', hmin⟩ := ih i' hf
        subst h
        refine ⟨by simpa using hm', ?_⟩
        intro j hj
        cases j with
        | zero => simpa using Bool.not_eq_true _ |>.mp hm
        | succ j' =>
          have hlt : j' < i' := by omega
          simpa using hmin j' hlt

/-- A findSub miss means no match anywhere. -/
theorem findSub_none (pat s : List Char) (h : findSub pat s = none) :
    ∀ j, matchesAt pat (s.drop j) = false := by
  induction s with
  | nil =>
    intro j
    unfold findSub at h
    by_cases hm : matchesAt pat [] = true
    · rw [if_pos hm] at h; cases h
    · simpa using Bool.not_eq_true _ |>.mp hm
  | cons d ss ih =>
    intro j
    rw [findSub_cons] at h
    by_cases hm : matchesAt pat (d :: ss) = true
    · rw [if_pos hm] at h; cases h
    · rw [if_neg hm] at h
      have hss : findSub pat ss = none := by
        cases hf : findSub pat ss with
        | none => rfl
        | some i' => rw [hf] at h; cases h
      cases j with
      | zero => simpa using Bool.not_eq_true _ |>.mp hm
      | succ j' => simpa using ih hss j'

/-- findSub finds the first match. -/
theorem findSub_intro (pat s : List Char) (i : Nat)
    (hm : matchesAt pat (s.drop i) = true)
    (hmin : ∀ j, j < i → matchesAt pat (s.drop j) = false) :
    findSub pat s = some i := by
  induction s generalizing i with
  | nil =>
    have hm0 : matchesAt pat [] = true := by simpa using hm
    cases i with
    | zero =>
      unfold findSub
      rw [if_pos hm0]
    | succ i' =>
      have := hmin 0 (Nat.succ_pos _)
      rw [List.drop_nil] at this
      rw [this] at hm0
      cases hm0
  | cons d ss ih =>
    rw [findSub_cons]
    cases i with
    | zero =>
      rw [if_pos (by simpa using hm)]
    | succ i' =>
      have h0 : matchesAt pat (d :: ss) = false := by
        simpa using hmin 0 (Nat.succ_pos _)
      rw [if_neg (by simp [h0])]
      have hrec : findSub pat ss = some i' := by
        refine ih i' (by simpa using hm) ?_
        intro j hj
        have := hmin (j + 1) (by omega)
        simpa using this
      rw [hrec]
      rfl

/-- noOcc from a computed hasOcc. -/
theorem noOcc_of_hasOcc_false (pat s : List Char) (h : hasOcc pat s = false) :
    noOcc pat s := by
  unfold hasOcc at h
  cases hf : findSub pat s with
  | none => exact findSub_none pat s hf
  | some i => rw [hf] at h; cases h

/-- noOcc on the empty text. -/
theorem noOcc_nil (pat : List Char) (hne : pat ≠ []) : noOcc pat [] := by
  intro j
  rw [List.drop_nil]
  cases pat with
  | nil => exact absurd rfl hne
  | cons c ps => rfl

/-- noOcc when no character of the text occurs in the pattern. -/
theorem noOcc_of_disjoint (pat s : List Char) (hne : pat ≠ [])
    (h : ∀ c ∈ s, c ∉ pat) : noOcc pat s := by
  intro j
  cases hd : s.drop j with
  | nil =>
    cases pat with
    | nil => exact absurd rfl hne
    | cons c ps => rfl
  | cons d ss =>
    have hdmem : d ∈ s := List.mem_of_mem_drop (by rw [hd]; exact List.mem_cons_self d ss)
    cases pat with
    | nil => exact absurd rfl hne
    | cons c ps =>
      show (c == d && matchesAt ps ss) = false
      by_cases hcd : c = d
      · subst hcd
        exact absurd (List.mem_cons_self c ps) (h c hdmem)
      · simp [hcd]

/-- Splitting an occurrence that straddles an append junction. -/
theorem straddle_decomp (pat a b : List Char) (p : Nat)
    (hp : p < a.length) (hlen : a.length < p + pat.length)
    (h : matchesAt pat ((a ++ b).drop p) = true) :
    pat = a.drop p ++ b.take (pat.length - (a.length - p)) := by
  obtain ⟨t, ht⟩ := (matchesAt_iff _ _).mp h
  rw [List.drop_append_of_le_length (Nat.le_of_lt hp)] at ht
  have hle : (a.drop p).length ≤ pat.length := by
    rw [List.length_drop]; omega
  have h1 : pat = (a.drop p ++ b).take pat.length := by
    rw [ht]
    exact (List.take_left' rfl).symm
  conv_lhs => rw [h1]
  rw [List.take_append_eq_append_take, List.take_of_length_le hle, List.length_drop]

/-- No occurrence in an append, given none in the parts and none straddling. -/
theorem noOcc_append (pat a b : List Char)
    (ha : noOcc pat a) (hb : noOcc pat b)
    (hstraddle : ∀ p, p < a.length → a.length < p + pat.length →
      matchesAt pat ((a ++ b).drop p) = false) :
    noOcc pat (a ++ b) := by
  intro p
  rcases Nat.lt_or_ge p a.length with hp | hp
  · rcases Nat.lt_or_ge a.length (p + pat.length) with hlen | hlen
    · exact hstraddle p hp hlen
    · cases hx : matchesAt pat ((a ++ b).drop p) with
      | false => rfl
      | true =>
        exfalso
        rw [List.drop_append_of_le_length (Nat.le_of_lt hp)] at hx
        have hxa : matchesAt pat (a.drop p) = true := by
          apply matchesAt_of_append_left pat _ _ hx
          rw [List.length_drop]; omega
        rw [ha p] at hxa
        cases hxa
  · rw [List.drop_append_eq_append_drop, List.drop_eq_nil_of_le hp, List.nil_append]
    exact hb _

/-- The head of a list lies in any positive-length take. -/
theorem head_mem_take (b : List Char) (c : Char) (k : Nat)
    (hb : b.head? = some c) (hk : 0 < k) : c ∈ b.take k := by
  cases b with
  | nil => cases hb
  | cons c' b' =>
    have hcc : c' = c := by injection hb
    subst hcc
    cases k with
    | zero => omega
    | succ k' => exact List.mem_cons_self _ _

/-- No occurrence across a junction whose right side starts with a character
    outside the pattern. -/
theorem noOcc_append_head (pat a b : List Char) (c : Char)
    (hc : c ∉ pat) (hb0 : b.head? = some c)
    (ha : noOcc pat a) (hb : noOcc pat b) : noOcc pat (a ++ b) := by
  refine noOcc_append pat a b ha hb ?_
  intro p hp hlen
  cases hx : matchesAt pat ((a ++ b).drop p) with
  | false => rfl
  | true =>
    exfalso
    have hdecomp := straddle_decomp pat a b p hp hlen hx
    apply hc
    rw [hdecomp]
    exact List.mem_append_right _ (head_mem_take b c _ hb0 (by omega))

/-- No occurrence across a junction whose left side ends with a character
    outside the pattern. -/
theorem noOcc_append_last (pat a b : List Char) (c : Char)
    (hc : c ∉ pat) (ha0 : ∃ a₀, a = a₀ ++ [c])
    (ha : noOcc pat a) (hb : noOcc pat b) : noOcc pat (a ++ b) := by
  refine noOcc_append pat a b ha hb ?_
  intro p hp hlen
  cases hx : matchesAt pat ((a ++ b).drop p) with
  | false => rfl
  | true =>
    exfalso
    have hdecomp := straddle_decomp pat a b p hp hlen hx
    apply hc
    rw [hdecomp]
    apply List.mem_append_left
    obtain ⟨a₀, rfl⟩ := ha0
    have hple : p ≤ a₀.length := by
      rw [List.length_append, List.length_cons, List.length_nil] at hp
      omega
    rw [List.drop_append_of_le_length hple]
    exact List.mem_append_right _ (by simp)

/-- Gluing with a newline on the left of the junction. -/
theorem noOcc_glueNL (pat a b : List Char) (hnl : ('\n' : Char) ∉ pat)
    (hends : ∃ a₀, a = a₀ ++ ['\n'])
    (ha : noOcc pat a) (hb : noOcc pat b) : noOcc pat (a ++ b) :=
  noOcc_append_last pat a b '\n' hnl hends ha hb

/-- noOcc of a singleton newline. -/
theorem noOcc_nl (pat : List Char) (hne : pat ≠ []) (hnl : ('\n' : Char) ∉ pat) :
    noOcc pat ['\n'] := by
  refine noOcc_of_disjoint pat _ hne ?_
  intro ch hch
  rw [List.mem_singleton] at hch
  subst hch
  exact hnl

/-- A newline-joined list of clean lines is clean: a newline-free pattern
    cannot overlap any separator. -/
theorem noOcc_joinNL (pat : List Char) (hne : pat ≠ []) (hnl : ('\n' : Char) ∉ pat)
    (ls : List String) (h : ∀ l ∈ ls, noOcc pat l.data) :
    noOcc pat (joinNL ls).data := by
  induction ls with
  | nil => exact noOcc_nil pat hne
  | cons x xs ih =>
    cases xs with
    | nil => exact h x (List.mem_cons_self _ _)
    | cons y t =>
      have hx := h x (List.mem_cons_self _ _)
      have hrest := ih (fun l hl => h l (List.mem_cons_of_mem _ hl))
      show noOcc pat (x ++ "\n" ++ joinNL (y :: t)).data
      rw [String.data_append, String.data_append, List.append_assoc]
      refine noOcc_append_head pat _ _ '\n' hnl rfl hx ?_
      refine noOcc_append_last pat _ _ '\n' hnl ⟨[], rfl⟩ ?_ hrest
      exact noOcc_nl pat hne hnl

/-- If the pattern matches right at the junction, occurs nowhere fully
    inside the left part, and is aperiodic, the first occurrence in the
    append is exactly at the junction. -/
theorem findSub_glue (pat x rest : List Char)
    (hmatch : matchesAt pat rest = true)
    (hper : noPeriod pat)
    (hx : ∀ q, q + pat.length ≤ x.length → matchesAt pat (x.drop q) = false) :
    findSub pat (x ++ rest) = some x.length := by
  apply findSub_intro
  · rw [List.drop_left]
    exact hmatch
  · intro q hq
    cases hxq : matchesAt pat ((x ++ rest).drop q) with
    | false => rfl
    | true =>
      exfalso
      rcases Nat.lt_or_ge x.length (q + pat.length) with hstr | hfit
      · have hdec := straddle_decomp pat x rest q hq hstr hxq
        obtain ⟨t2, ht2⟩ := (matchesAt_iff _ _).mp hmatch
        rw [ht2, List.take_append_of_le_length (by omega)] at hdec
        have hd : (x.drop q).length = x.length - q := List.length_drop _ _
        have hdrop : pat.drop (x.length - q) = pat.take (pat.length - (x.length - q)) := by
          conv_lhs => rw [hdec]
          rw [List.drop_left' hd]
        exact hper (x.length - q) (by omega) (by omega) hdrop
      · have hq' : matchesAt pat (x.drop q) = true := by
          rw [List.drop_append_of_le_length (by omega)] at hxq
          exact matchesAt_of_append_left _ _ _ hxq (by rw [List.length_drop]; omega)
        rw [hx q hfit] at hq'
        cases hq'

/-- Core idempotence of the section splice: when the replacement starts
    with the start marker and contains no end marker, splicing a second
    time rebuilds exactly the same text. -/
theorem spliceSection_idem (doc repl : List Char)
    (hstart : matchesAt startMarker repl = true)
    (hocc : noOcc endMarker repl) :
    spliceSection (spliceSection doc repl) repl = spliceSection doc repl := by
  have hper1 : noPeriod startMarker := by
    unfold noPeriod
    decide
  have hper2 : noPeriod endMarker := by
    unfold noPeriod
    decide
  cases h1 : findSub startMarker doc with
  | none =>
    have e : spliceSection doc repl = doc := by
      unfold spliceSection
      rw [h1]
    rw [e, e]
  | some i =>
    cases h2 : findSub endMarker (doc.drop (i + startMarker.length)) with
    | none =>
      have e : spliceSection doc repl = doc := by
        unfold spliceSection
        rw [h1]
        dsimp only
        rw [h2]
      rw [e, e]
    | some j =>
      obtain ⟨hm1, hmin1⟩ := findSub_some _ _ _ h1
      obtain ⟨hm2, hmin2⟩ := findSub_some _ _ _ h2
      have h28 : startMarker.length ≤ repl.length := matchesAt_length_le _ _ hstart
      have hsm : 0 < startMarker.length := by decide
      have hi_le : i + startMarker.length ≤ doc.length := by
        have hh := matchesAt_length_le _ _ hm1
        rw [List.length_drop] at hh
        omega
      have hTlen : (doc.take i).length = i := by
        rw [List.length_take, Nat.min_eq_left (by omega)]
      have hmP : matchesAt endMarker (doc.drop (i + startMarker.length + j)) = true := by
        have hdd : (doc.drop (i + startMarker.length)).drop j
            = doc.drop (i + startMarker.length + j) := List.drop_drop _ _ _
        rw [← hdd]
        exact hm2
      have e : spliceSection doc repl
          = doc.take i ++ (repl ++ doc.drop (i + startMarker.length + j)) := by
        unfold spliceSection
        rw [h1]
        dsimp only
        rw [h2]
        dsimp only
        rw [List.append_assoc]
      set T := doc.take i with hT
      set P := doc.drop (i + startMarker.length + j) with hP
      -- the loop report never revisits: first marker of the rebuilt
      -- document sits at the same index
      have hxT : ∀ q, q + startMarker.length ≤ T.length →
          matchesAt startMarker (T.drop q) = false := by
        intro q hq
        cases hxq : matchesAt startMarker (T.drop q) with
        | false => rfl
        | true =>
          exfalso
          have hqi : q < i := by
            rw [hTlen] at hq
            omega
          have hsplit : doc = T ++ doc.drop i := by
            rw [hT]
            exact (List.take_append_drop i doc).symm
          have hdocq : doc.drop q = T.drop q ++ doc.drop i := by
            conv_lhs => rw [hsplit]
            rw [List.drop_append_of_le_length (by rw [hTlen]; omega)]
          have hdq : matchesAt startMarker (doc.drop q) = true := by
            rw [hdocq]
            exact matchesAt_append _ _ _ hxq
          rw [hmin1 q hqi] at hdq
          cases hdq
      have hA : findSub startMarker (T ++ (repl ++ P)) = some i := by
        have hglue := findSub_glue startMarker T (repl ++ P)
          (matchesAt_append _ _ _ hstart) hper1 hxT
        rw [hglue, hTlen]
      -- end marker of the rebuilt document: right after the replacement
      have hdrop2 : (T ++ (repl ++ P)).drop (i + startMarker.length)
          = repl.drop startMarker.length ++ P := by
        rw [List.drop_append_eq_append_drop, hTlen,
          List.drop_eq_nil_of_le (by rw [hTlen]; omega), List.nil_append,
          Nat.add_sub_cancel_left, List.drop_append_of_le_length h28]
      have hxR : ∀ q, q + endMarker.length ≤ (repl.drop startMarker.length).length →
          matchesAt endMarker ((repl.drop startMarker.length).drop q) = false := by
        intro q _
        rw [List.drop_drop]
        exact hocc _
      have hB : findSub endMarker ((T ++ (repl ++ P)).drop (i + startMarker.length))
          = some (repl.length - startMarker.length) := by
        rw [hdrop2]
        have hglue := findSub_glue endMarker (repl.drop startMarker.length) P hmP hper2 hxR
        rw [hglue, List.length_drop]
      -- the second splice rebuilds the same text
      have e2 : spliceSection (T ++ (repl ++ P)) repl = T ++ (repl ++ P) := by
        unfold spliceSection
        rw [hA]
        dsimp only
        rw [hB]
        dsimp only
        have hidx : i + startMarker.length + (repl.length - startMarker.length)
            = i + repl.length := by omega
        rw [hidx]
        have htake : (T ++ (repl ++ P)).take i = T := List.take_left' hTlen
        have hdropf : (T ++ (repl ++ P)).drop (i + repl.length) = P := by
          rw [List.drop_append_eq_append_drop, hTlen,
            List.drop_eq_nil_of_le (by rw [hTlen]; omega), List.nil_append,
            Nat.add_sub_cancel_left, List.drop_left]
        rw [htake, hdropf, List.append_assoc]
      rw [e, e2]

/-- C6 amended witness at a concrete input. -/
theorem c6_nodup_amended_witness :
    (filesToInstall ⟨["typescript", "go"], ["react"], ["laravel"], true,
      none, none⟩).Nodup :=
  c6_nodup_amended ⟨["typescript", "go"], ["react"], ["laravel"], true, none, none⟩
    (by decide) (by decide) (by decide) (by decide) (by decide) (by decide) (by decide)

/-- Unfolding the newline literal. -/
theorem data_nl : ("\n" : String).data = ['\n'] := rfl

/-- Unfolding the double-newline literal. -/
theorem data_nlnl : ("\n\n" : String).data = ['\n', '\n'] := rfl

/-- A block of the generated section contains no end marker, given a clean
    newline-terminated heading and clean reference lines. -/
theorem noOcc_block (pat : List Char) (hne : pat ≠ []) (hnl : ('\n' : Char) ∉ pat)
    (hdrNL refs : String)
    (hhdr : noOcc pat hdrNL.data)
    (hdrEnds : ∃ a₀, hdrNL.data = a₀ ++ ['\n'])
    (hrefs : noOcc pat refs.data) :
    noOcc pat (hdrNL ++ refs ++ "\n\n").data := by
  have hd : (hdrNL ++ refs ++ "\n\n").data = hdrNL.data ++ (refs.data ++ ['\n', '\n']) := by
    simp [data_nlnl, List.append_assoc]
  rw [hd]
  refine noOcc_glueNL pat _ _ hnl hdrEnds hhdr ?_
  refine noOcc_append_head pat _ _ '\n' hnl rfl hrefs ?_
  refine noOcc_of_disjoint pat _ hne ?_
  intro c hc
  have hcc : c = '\n' := by
    simpa using hc
  subst hcc
  exact hnl

/-- Every generated language line is free of the end marker. -/
theorem languageLine_noOcc (l : String) (hl : l ∈ languageValues) :
    noOcc endMarker (languageRefLine l).data := by
  apply noOcc_of_hasOcc_false
  simp only [languageValues, languageOptions, List.map_cons, List.map_nil,
    List.mem_cons, List.not_mem_nil, or_false] at hl
  rcases hl with rfl | rfl | rfl | rfl | rfl | rfl | rfl <;> decide

/-- Every generated frontend line is free of the end marker. -/
theorem frontendLine_noOcc (f : String) (hf : f ∈ frontendValues) :
    noOcc endMarker (frontendRefLine f).data := by
  apply noOcc_of_hasOcc_false
  simp only [frontendValues, frontendFrameworkOptions, List.map_cons, List.map_nil,
    List.mem_cons, List.not_mem_nil, or_false] at hf
  rcases hf with rfl | rfl | rfl | rfl <;> decide

/-- Every generated backend line is free of the end marker. -/
theorem backendLine_noOcc (b : String) (hb : b ∈ backendValues) :
    noOcc endMarker (backendRefLine b).data := by
  apply noOcc_of_hasOcc_false
  simp only [backendValues, backendFrameworkOptions, List.map_cons, List.map_nil,
    List.mem_cons, List.not_mem_nil, or_false] at hb
  rcases hb with rfl | rfl | rfl | rfl | rfl | rfl | rfl <;> decide

/-- The frontend block is end-marker-free and newline-terminated. -/
theorem frontendBlock_noOcc (s : Selections)
    (hf : ∀ x ∈ s.frontendFrameworks, x ∈ frontendValues) :
    noOcc endMarker (frontendBlock s).data ∧
    ((frontendBlock s).data = [] ∨ ∃ a₀, (frontendBlock s).data = a₀ ++ ['\n']) := by
  have hne : endMarker ≠ [] := by decide
  have hnl : ('\n' : Char) ∉ endMarker := by decide
  unfold frontendBlock
  by_cases h : joinNL (s.frontendFrameworks.map frontendRefLine) = ""
  · rw [if_pos h]
    exact ⟨noOcc_nil _ hne, Or.inl rfl⟩
  · rw [if_neg h]
    have hrefs : noOcc endMarker (joinNL (s.frontendFrameworks.map frontendRefLine)).data := by
      apply noOcc_joinNL endMarker hne hnl
      intro l hlm
      obtain ⟨x, hx, rfl⟩ := List.mem_map.mp hlm
      exact frontendLine_noOcc x (hf x hx)
    constructor
    · refine noOcc_block endMarker hne hnl _ _ ?_ ?_ hrefs
      · apply noOcc_of_hasOcc_false
        decide
      · exact ⟨"### Frontend Frameworks".data, by decide⟩
    · right
      refine ⟨("### Frontend Frameworks\n"
        ++ joinNL (s.frontendFrameworks.map frontendRefLine) ++ "\n").data, ?_⟩
      simp [data_nl, data_nlnl, List.append_assoc]

/-- The backend block is end-marker-free and newline-terminated. -/
theorem backendBlock_noOcc (s : Selections)
    (hb : ∀ x ∈ s.backendFrameworks, x ∈ backendValues) :
    noOcc endMarker (backendBlock s).data ∧
    ((backendBlock s).data = [] ∨ ∃ a₀, (backendBlock s).data = a₀ ++ ['\n']) := by
  have hne : endMarker ≠ [] := by decide
  have hnl : ('\n' : Char) ∉ endMarker := by decide
  unfold backendBlock
  by_cases h : joinNL (s.backendFrameworks.map backendRefLine) = ""
  · rw [if_pos h]
    exact ⟨noOcc_nil _ hne, Or.inl rfl⟩
  · rw [if_neg h]
    have hrefs : noOcc endMarker (joinNL (s.backendFrameworks.map backendRefLine)).data := by
      apply noOcc_joinNL endMarker hne hnl
      intro l hlm
      obtain ⟨x, hx, rfl⟩ := List.mem_map.mp hlm
      exact backendLine_noOcc x (hb x hx)
    constructor
    · refine noOcc_block endMarker hne hnl _ _ ?_ ?_ hrefs
      · apply noOcc_of_hasOcc_false
        decide
      · exact ⟨"### Backend Frameworks".data, by decide⟩
    · right
      refine ⟨("### Backend Frameworks\n"
        ++ joinNL (s.backendFrameworks.map backendRefLine) ++ "\n").data, ?_⟩
      simp [data_nl, data_nlnl, List.append_assoc]

/-- The languages block is end-marker-free and newline-terminated. -/
theorem languageBlock_noOcc (s : Selections)
    (hl : ∀ x ∈ s.languages, x ∈ languageValues) :
    noOcc endMarker (languageBlock s).data ∧
    ((languageBlock s).data = [] ∨ ∃ a₀, (languageBlock s).data = a₀ ++ ['\n']) := by
  have hne : endMarker ≠ [] := by decide
  have hnl : ('\n' : Char) ∉ endMarker := by decide
  unfold languageBlock
  by_cases h : joinNL (s.languages.map languageRefLine) = ""
  · rw [if_pos h]
    exact ⟨noOcc_nil _ hne, Or.inl rfl⟩
  · rw [if_neg h]
    have hrefs : noOcc endMarker (joinNL (s.languages.map languageRefLine)).data := by
      apply noOcc_joinNL endMarker hne hnl
      intro l hlm
      obtain ⟨x, hx, rfl⟩ := List.mem_map.mp hlm
      exact languageLine_noOcc x (hl x hx)
    constructor
    · refine noOcc_block endMarker hne hnl _ _ ?_ ?_ hrefs
      · apply noOcc_of_hasOcc_false
        decide
      · exact ⟨"### Languages".data, by decide⟩
    · right
      refine ⟨("### Languages\n"
        ++ joinNL (s.languages.map languageRefLine) ++ "\n").data, ?_⟩
      simp [data_nl, data_nlnl, List.append_assoc]

/-- The general block is end-marker-free and newline-terminated. -/
theorem generalBlock_noOcc (s : Selections) :
    noOcc endMarker (generalBlock s).data ∧
    ((generalBlock s).data = [] ∨ ∃ a₀, (generalBlock s).data = a₀ ++ ['\n']) := by
  have hne : endMarker ≠ [] := by decide
  unfold generalBlock
  cases s.includeApi with
  | false =>
    rw [if_neg (by simp)]
    exact ⟨noOcc_nil _ hne, Or.inl rfl⟩
  | true =>
    rw [if_pos rfl]
    constructor
    · apply noOcc_of_hasOcc_false
      decide
    · right
      exact ⟨"### General\n- **API / HTTP**: See [api.md](api.md)\n".data, by decide⟩

/-- For a selection made of known keys, the whole replacement text
    contains no end marker. -/
theorem refSection_noOcc (s : Selections)
    (hl : ∀ x ∈ s.languages, x ∈ languageValues)
    (hf : ∀ x ∈ s.frontendFrameworks, x ∈ frontendValues)
    (hb : ∀ x ∈ s.backendFrameworks, x ∈ backendValues) :
    noOcc endMarker (refSectionFor s ++ "\n\n").data := by
  have hne : endMarker ≠ [] := by decide
  have hnl : ('\n' : Char) ∉ endMarker := by decide
  obtain ⟨hF, hFe⟩ := frontendBlock_noOcc s hf
  obtain ⟨hB, hBe⟩ := backendBlock_noOcc s hb
  obtain ⟨hL, hLe⟩ := languageBlock_noOcc s hl
  obtain ⟨hG, hGe⟩ := generalBlock_noOcc s
  have houtro : noOcc endMarker (sectionOutro ++ "\n\n").data := by
    apply noOcc_of_hasOcc_false
    decide
  have hintro : noOcc endMarker sectionIntro.data := by
    apply noOcc_of_hasOcc_false
    decide
  have hintroEnds : ∃ a₀, sectionIntro.data = a₀ ++ ['\n'] :=
    ⟨("## Stack-Specific References\n\nFor detailed conventions per framework or language, read the relevant reference file:\n" : String).data,
     by decide⟩
  have glue : ∀ x y : List Char, noOcc endMarker x → noOcc endMarker y →
      (x = [] ∨ ∃ a₀, x = a₀ ++ ['\n']) → noOcc endMarker (x ++ y) := by
    intro x y hx hy hxe
    rcases hxe with rfl | he
    · simpa using hy
    · exact noOcc_glueNL endMarker x y hnl he hx hy
  have hshape : (refSectionFor s ++ "\n\n").data
      = sectionIntro.data ++ ((frontendBlock s).data ++ ((backendBlock s).data
        ++ ((languageBlock s).data ++ ((generalBlock s).data
        ++ (sectionOutro ++ "\n\n").data)))) := by
    simp [refSectionFor, List.append_assoc]
  rw [hshape]
  refine glue _ _ hintro ?_ (Or.inr hintroEnds)
  refine glue _ _ hF ?_ hFe
  refine glue _ _ hB ?_ hBe
  refine glue _ _ hL ?_ hLe
  exact glue _ _ hG houtro hGe

/-- The replacement text begins with the start marker. -/
theorem refSection_starts (s : Selections) :
    matchesAt startMarker (refSectionFor s ++ "\n\n").data = true := by
  have hshape : (refSectionFor s ++ "\n\n").data
      = sectionIntro.data ++ ((frontendBlock s).data ++ ((backendBlock s).data
        ++ ((languageBlock s).data ++ ((generalBlock s).data
        ++ (sectionOutro ++ "\n\n").data)))) := by
    simp [refSectionFor, List.append_assoc]
  rw [hshape]
  exact matchesAt_append _ _ _ (by decide)

/-- C7: generateSkillFile is, by construction, a pure function of the
    primary document bytes and the selection; applied twice with the same
    selection it returns the same bytes as applied once, for every
    selection drawn from the known catalog keys; and the generated section
    is the intro followed by the Frontend, Backend, Languages and General
    groups in that fixed order, then the closing sentence. -/
theorem c7_regenerate_idempotent (base : String) (s : Selections)
    (hl : ∀ x ∈ s.languages, x ∈ languageValues)
    (hf : ∀ x ∈ s.frontendFrameworks, x ∈ frontendValues)
    (hb : ∀ x ∈ s.backendFrameworks, x ∈ backendValues) :
    generateSkillContent (generateSkillContent base s) s
      = generateSkillContent base s ∧
    refSectionFor s = sectionIntro ++ frontendBlock s ++ backendBlock s
      ++ languageBlock s ++ generalBlock s ++ sectionOutro := by
  refine ⟨?_, rfl⟩
  unfold generateSkillContent
  exact congrArg String.mk
    (spliceSection_idem base.data ((refSectionFor s ++ "\n\n").data)
      (refSection_starts s) (refSection_noOcc s hl hf hb))

/-- C7 witness at a concrete document and selection. -/
theorem c7_regenerate_idempotent_witness :
    (∀ x ∈ c7Input.languages, x ∈ languageValues) ∧
    (∀ x ∈ c7Input.frontendFrameworks, x ∈ frontendValues) ∧
    (∀ x ∈ c7Input.backendFrameworks, x ∈ backendValues) ∧
    (generateSkillContent (generateSkillContent skillBase c7Input) c7Input
      = generateSkillContent skillBase c7Input ∧
    refSectionFor c7Input = sectionIntro ++ frontendBlock c7Input
      ++ backendBlock c7Input ++ languageBlock c7Input ++ generalBlock c7Input
      ++ sectionOutro) :=
  ⟨by decide, by decide, by decide,
   c7_regenerate_idempotent skillBase c7Input (by decide) (by decide) (by decide)⟩

end AgentConventions
